import Mathlib

/-!
Shallow embedding of `bus_schedule_reporter.py` (extractor, aggregator and
grid builder) and verification of its specification claims.

Modelling conventions:
* Raw text is modelled as `List Char` per line (ASCII, as produced by the
  scheduling tool); a file is a `List (List Char)`.
* Python numbers (int / float) are modelled by exact rationals.  Because the
  arithmetic of Mathlib's `Rat` does not reduce in the kernel, the embedding
  uses its own fraction type `Q` (an integer numerator and natural
  denominator, kept in lowest terms with positive denominator by every
  operation), together with soundness lemmas mapping `Q` to `ℚ`.  On values
  produced by the operations below, propositional equality of `Q` coincides
  with equality of the represented rationals.
* `round(x, 2)` is modelled by `Q.round2`, exact rounding to hundredths with
  ties to even (Python's tie rule, evaluated on exact values).
* The concrete regular expressions of the source are small enough to be
  translated directly into deterministic scanners; each scanner follows the
  backtracking semantics of its pattern (greedy runs whose character classes
  are disjoint from what follows, hence no effective backtracking).
* Python dicts (insertion ordered, unique keys) are modelled as association
  lists with an update-in-place operation.
-/

namespace BusReport

/-- Exact rational numbers with kernel-computable arithmetic: numerator and
denominator, produced in lowest terms with positive denominator by `Q.mk'`
and the operations built on it. -/
structure Q where
  n : ℤ
  d : ℕ
deriving DecidableEq

/-- Build the reduced representation of the fraction n / d (sign moved to the
numerator, common factors cancelled); denominator 0 yields the zero value,
matching `Rat.divInt`. -/
def Q.mk' (num : ℤ) (den : ℤ) : Q :=
  if den = 0 then ⟨0, 1⟩
  else
    let n' : ℤ := if den < 0 then -num else num
    let d' : ℕ := den.natAbs
    let g : ℕ := Nat.gcd n'.natAbs d'
    ⟨n' / (g : ℤ), d' / g⟩

def Q.ofNat (k : ℕ) : Q := ⟨(k : ℤ), 1⟩

def Q.add (a b : Q) : Q := Q.mk' (a.n * (b.d : ℤ) + b.n * (a.d : ℤ)) ((a.d : ℤ) * (b.d : ℤ))

def Q.mul (a b : Q) : Q := Q.mk' (a.n * b.n) ((a.d : ℤ) * (b.d : ℤ))

def Q.div (a b : Q) : Q := Q.mk' (a.n * (b.d : ℤ)) ((a.d : ℤ) * b.n)

/-- Floor of the represented rational (denominators are positive on all
values the embedding produces). -/
def Q.floor (a : Q) : ℤ := Int.fdiv a.n (a.d : ℤ)

/-- Round the represented rational to the nearest integer, ties to even (the
tie rule of Python's round, applied to exact values). -/
def Q.rhe (a : Q) : ℤ :=
  let f := a.floor
  let r := a.n - f * (a.d : ℤ)
  if 2 * r < (a.d : ℤ) then f
  else if (a.d : ℤ) < 2 * r then f + 1
  else if f % 2 = 0 then f else f + 1

/-- Python round(x, 2) on exact values: round to hundredths, ties to even. -/
def Q.round2 (a : Q) : Q := Q.mk' (Q.rhe (a.mul (Q.ofNat 100))) 100

/-- Half of a value, rounded to 2 decimals: round(v / 2, 2) of the source's
halving rule. -/
def Q.halve (a : Q) : Q := Q.round2 (a.div (Q.ofNat 2))

/-- The rational represented by a `Q` value. -/
def Q.toRat (a : Q) : ℚ := (a.n : ℚ) / (a.d : ℚ)

/-- Round a rational to the nearest integer, ties to even, stated directly
over `ℚ` (the reference meaning of `Q.rhe`). -/
def rheRat (q : ℚ) : ℤ :=
  if q - ⌊q⌋ < 1/2 then ⌊q⌋
  else if 1/2 < q - ⌊q⌋ then ⌊q⌋ + 1
  else if ⌊q⌋ % 2 = 0 then ⌊q⌋ else ⌊q⌋ + 1

/-- Python round(x, 2) stated directly over `ℚ` (the reference meaning of
`Q.round2`). -/
def specRound2 (q : ℚ) : ℚ := (rheRat (q * 100) : ℚ) / 100

/-- Characters matched by the regex class \s on the ASCII inputs. -/
def isSpace (c : Char) : Bool :=
  c == ' ' || c == '\t' || c == '\n' || c == '\r' || c == '\x0b' || c == '\x0c'

/-- Python str.strip(): remove leading and trailing whitespace. -/
def strip (l : List Char) : List Char :=
  ((l.dropWhile isSpace).reverse.dropWhile isSpace).reverse

/-- Value of a digit string (int(...) on a run of ASCII digits). -/
def natOfDigits (l : List Char) : ℕ :=
  l.foldl (fun acc c => 10 * acc + (c.toNat - 48)) 0

/-- Python str.lower() on ASCII text. -/
def lowerList (l : List Char) : List Char := l.map Char.toLower

/-- Python str.upper() on ASCII text. -/
def upperList (l : List Char) : List Char := l.map Char.toUpper

/-- Python substring test (`needle in hay`). -/
def containsSub (needle : List Char) : List Char → Bool
  | [] => needle.isPrefixOf []
  | c :: t => needle.isPrefixOf (c :: t) || containsSub needle t

/-- parse_time_string (lines 35-41): re.match r'(\d+)h(\d+)' against the
captured value (an anchored prefix match: a nonempty greedy digit run, the
letter h, a nonempty greedy digit run, arbitrary trailing text), then
round(hours + minutes / 60, 2); 0.0 when the prefix match fails. -/
def parse_time_string (s : List Char) : Q :=
  let hs := s.takeWhile Char.isDigit
  if hs.isEmpty then Q.ofNat 0
  else
    match s.dropWhile Char.isDigit with
    | c :: r =>
        if c = 'h' then
          let ms := r.takeWhile Char.isDigit
          if ms.isEmpty then Q.ofNat 0
          else
            Q.round2 ((Q.ofNat (natOfDigits hs)).add ((Q.ofNat (natOfDigits ms)).div (Q.ofNat 60)))
        else Q.ofNat 0
    | [] => Q.ofNat 0

/-- Python float(...) on a digits-and-dots token, as a partial function:
defined when there is exactly one dot and the digits around it are not both
absent.  The zero-dot case is handled separately in `parseNumeric`. -/
def parseDotted (val : List Char) : Option Q :=
  if val.count '.' == 1 then
    let ip := val.takeWhile (fun c => c != '.')
    let fp := (val.dropWhile (fun c => c != '.')).drop 1
    if ip.all Char.isDigit && fp.all Char.isDigit && !(ip.isEmpty && fp.isEmpty) then
      some ((Q.ofNat (natOfDigits ip)).add ((Q.ofNat (natOfDigits fp)).div (Q.ofNat (10 ^ fp.length))))
    else none
  else none

/-- Lines 77-80 of the source: `float(val) if '.' in val else int(val)`,
with any conversion error silently replaced by 0. -/
def parseNumeric (val : List Char) : Q :=
  if val.contains '.' then
    match parseDotted val with
    | some q => q
    | none => Q.ofNat 0
  else if !val.isEmpty && val.all Char.isDigit then Q.ofNat (natOfDigits val)
  else Q.ofNat 0

/-- Acceptance condition of Python float() on a digits-and-dots token,
stated independently of the parser: at most one dot and at least one digit. -/
def pythonFloatAccepts (val : List Char) : Bool :=
  decide (val.count '.' ≤ 1) && val.any Char.isDigit

/-- extract_booking_code (lines 43-48): re.search r'Booking:\s*(\d+)' at one
position of a line — the literal, then a greedy whitespace run, then a
nonempty greedy digit run (the capture). -/
def bookingTagAt (l : List Char) : Option (List Char) :=
  if ("Booking:".data).isPrefixOf l then
    let ds := ((l.drop ("Booking:".data).length).dropWhile isSpace).takeWhile Char.isDigit
    if ds.isEmpty then none else some ds
  else none

/-- Leftmost position of a line at which the booking pattern matches. -/
def searchBooking : List Char → Option (List Char)
  | [] => bookingTagAt []
  | c :: t =>
      match bookingTagAt (c :: t) with
      | some ds => some ds
      | none => searchBooking t

/-- extract_booking_code: the digits of the first line containing a match of
the booking pattern, or "unknown" when no line matches. -/
def extract_booking_code : List (List Char) → String
  | [] => "unknown"
  | line :: rest =>
      match searchBooking line with
      | some ds => String.mk ds
      | none => extract_booking_code rest

/-- Lines 203-206 of the source: fold the per-file booking codes in upload
order; a code is adopted when it is not "unknown" (case-insensitively) and no
code has been adopted yet. -/
def overallBooking (codes : List String) : String :=
  codes.foldl
    (fun acc bc => if lowerList bc.data != "unknown".data && acc == "unknown" then bc else acc)
    "unknown"

/-- The nine metric fields, in the column order of `data_fields`
(lines 10-20 of the source). -/
inductive Field
  | blocks
  | trips
  | offServiceDuration
  | inServiceDuration
  | loadingDuration
  | layoverDuration
  | platformHours
  | inServiceDistance
  | revenueHours
deriving DecidableEq

/-- The display name of each field (first component of `data_fields`). -/
def fieldName : Field → String
  | .blocks => "Blocks"
  | .trips => "Trips"
  | .offServiceDuration => "Off Service Duration"
  | .inServiceDuration => "In Service Duration"
  | .loadingDuration => "Loading Duration"
  | .layoverDuration => "Layover Duration"
  | .platformHours => "Platform Hours"
  | .inServiceDistance => "In-service Distance (KM)"
  | .revenueHours => "Revenue Hours"

/-- The ordered field list of the source (`data_fields`). -/
def data_fields : List Field :=
  [.blocks, .trips, .offServiceDuration, .inServiceDuration, .loadingDuration,
   .layoverDuration, .platformHours, .inServiceDistance, .revenueHours]

/-- Capture classes of the extraction patterns: (\d+), ([\dhm]+), ([\d\.]+). -/
inductive CapCls
  | digits
  | dhm
  | digitsDot
deriving DecidableEq

def clsFn : CapCls → Char → Bool
  | .digits => Char.isDigit
  | .dhm => fun c => c.isDigit || c == 'h' || c == 'm'
  | .digitsDot => fun c => c.isDigit || c == '.'

/-- The literal part (before \s*:\s*(...)) and capture class of each direct
extraction pattern; Revenue Hours is the computed field without a pattern. -/
def fieldPat : Field → Option (String × CapCls)
  | .blocks => some ("Number of blocks", .digits)
  | .trips => some ("Number of in-service trips", .digits)
  | .offServiceDuration => some ("Off-service duration", .dhm)
  | .inServiceDuration => some ("In-service duration", .dhm)
  | .loadingDuration => some ("Loading duration", .dhm)
  | .layoverDuration => some ("Layover duration", .dhm)
  | .platformHours => some ("Total duration", .dhm)
  | .inServiceDistance => some ("In-service distance", .digitsDot)
  | .revenueHours => none

/-- Match one extraction pattern at one position: the literal, a greedy
whitespace run, a colon, a greedy whitespace run, then a nonempty greedy run
of the capture class. -/
def patMatchAt (lit : List Char) (cls : Char → Bool) (l : List Char) : Option (List Char) :=
  if lit.isPrefixOf l then
    match (l.drop lit.length).dropWhile isSpace with
    | ':' :: r =>
        let cap := (r.dropWhile isSpace).takeWhile cls
        if cap.isEmpty then none else some cap
    | _ => none
  else none

/-- re.search of one extraction pattern: leftmost position at which the
pattern matches. -/
def searchPat (lit : List Char) (cls : Char → Bool) : List Char → Option (List Char)
  | [] => patMatchAt lit cls []
  | c :: t =>
      match patMatchAt lit cls (c :: t) with
      | some cap => some cap
      | none => searchPat lit cls t

/-- Line 74 of the source: 'Duration' in field_name or
field_name == 'Platform Hours'. -/
def isDurationField (f : Field) : Bool :=
  containsSub "Duration".data (fieldName f).data || fieldName f == "Platform Hours"

/-- One per-route record: every field keyed in the dict created at line 64,
all values initialized to zero. -/
structure Record where
  blocks : Q
  trips : Q
  offServiceDuration : Q
  inServiceDuration : Q
  loadingDuration : Q
  layoverDuration : Q
  platformHours : Q
  inServiceDistance : Q
  revenueHours : Q
deriving DecidableEq

def getF (r : Record) : Field → Q
  | .blocks => r.blocks
  | .trips => r.trips
  | .offServiceDuration => r.offServiceDuration
  | .inServiceDuration => r.inServiceDuration
  | .loadingDuration => r.loadingDuration
  | .layoverDuration => r.layoverDuration
  | .platformHours => r.platformHours
  | .inServiceDistance => r.inServiceDistance
  | .revenueHours => r.revenueHours

def setF (r : Record) : Field → Q → Record
  | .blocks, v => { r with blocks := v }
  | .trips, v => { r with trips := v }
  | .offServiceDuration, v => { r with offServiceDuration := v }
  | .inServiceDuration, v => { r with inServiceDuration := v }
  | .loadingDuration, v => { r with loadingDuration := v }
  | .layoverDuration, v => { r with layoverDuration := v }
  | .platformHours, v => { r with platformHours := v }
  | .inServiceDistance, v => { r with inServiceDistance := v }
  | .revenueHours, v => { r with revenueHours := v }

def zeroQ : Q := ⟨0, 1⟩

/-- The fresh record of line 64: every field at zero. -/
def initRecord : Record :=
  ⟨zeroQ, zeroQ, zeroQ, zeroQ, zeroQ, zeroQ, zeroQ, zeroQ, zeroQ⟩

/-- Lines 73-75: strip the capture, then duration fields go through
parse_time_string and the rest through the numeric conversion. -/
def fieldValue (f : Field) (cap : List Char) : Q :=
  if isDurationField f then parse_time_string (strip cap) else parseNumeric (strip cap)

/-- Lines 68-81: try every direct extraction pattern on the line and store
each match into the current record. -/
def applyFields (rec : Record) (line : List Char) : Record :=
  data_fields.foldl
    (fun r f =>
      match fieldPat f with
      | none => r
      | some (lit, cls) =>
          match searchPat lit.data (clsFn cls) line with
          | none => r
          | some cap => setF r f (fieldValue f cap))
    rec

/-- Lines 59-63: re.match r'\s*Route\s+(\S+)\s+(.*)' and the route
identifier f"{num} {name}" with name = group(2).strip().  The scanner
follows the pattern exactly: optional leading whitespace, the literal, at
least one whitespace, a nonempty non-whitespace token, at least one
whitespace, then the rest of the line up to a newline. -/
def routeMatch (l : List Char) : Option String :=
  let r := l.dropWhile isSpace
  if ("Route".data).isPrefixOf r then
    let r1 := r.drop ("Route".data).length
    if (r1.takeWhile isSpace).isEmpty then none
    else
      let r2 := r1.dropWhile isSpace
      let tok := r2.takeWhile (fun c => !isSpace c)
      if tok.isEmpty then none
      else
        let r3 := r2.dropWhile (fun c => !isSpace c)
        if (r3.takeWhile isSpace).isEmpty then none
        else
          let rest := (r3.dropWhile isSpace).takeWhile (fun c => c != '\n')
          some (String.mk (tok ++ ' ' :: strip rest))
  else none

/-- Update an association list in place (Python dict assignment): replace
the value at an existing key, else append a new entry. -/
def updateAssoc {α : Type} (d : List (String × α)) (k : String) (v : α) : List (String × α) :=
  match d with
  | [] => [(k, v)]
  | (k', v') :: t => if k' = k then (k, v) :: t else (k', v') :: updateAssoc t k v

/-- Dictionary lookup. -/
def lookupKey {α : Type} (k : String) : List (String × α) → Option α
  | [] => none
  | (k', v) :: t => if k' = k then some v else lookupKey k t

/-- State of the line loop of extract_data: the route dict and the current
route (None before the first route header). -/
structure ExtState where
  data : List (String × Record)
  current : Option String
deriving DecidableEq

/-- One iteration of the line loop (lines 58-81): a route header opens a
fresh record and becomes current; otherwise, with a current route, matched
fields are stored; lines before any route header are skipped. -/
def extractStep (st : ExtState) (line : List Char) : ExtState :=
  match routeMatch line with
  | some rid => ⟨updateAssoc st.data rid initRecord, some rid⟩
  | none =>
      match st.current with
      | none => st
      | some rid =>
          match lookupKey rid st.data with
          | none => st
          | some rec => ⟨updateAssoc st.data rid (applyFields rec line), st.current⟩

/-- Line 90: route.strip().lower() == "65 senior shopper". -/
def isSenior (rid : String) : Bool :=
  lowerList (strip rid.data) == "65 senior shopper".data

/-- Lines 85-88: Revenue Hours = round(In Service Duration + Layover
Duration, 2). -/
def computeRevenue (r : Record) : Record :=
  { r with revenueHours := Q.round2 (r.inServiceDuration.add r.layoverDuration) }

/-- Lines 91-92: every field divided by 2 and rounded to 2 decimals. -/
def halveRec (r : Record) : Record :=
  ⟨r.blocks.halve, r.trips.halve, r.offServiceDuration.halve, r.inServiceDuration.halve,
   r.loadingDuration.halve, r.layoverDuration.halve, r.platformHours.halve,
   r.inServiceDistance.halve, r.revenueHours.halve⟩

/-- The post-pass of lines 84-92 on one dict entry: compute Revenue Hours,
then halve every field when the identifier matches the senior-shopper rule. -/
def postRoute (p : String × Record) : String × Record :=
  let r := computeRevenue p.2
  (p.1, if isSenior p.1 then halveRec r else r)

/-- The line loop applied to a whole file. -/
def rawState (lines : List (List Char)) : ExtState :=
  lines.foldl extractStep ⟨[], none⟩

/-- extract_data (lines 50-94): booking code and the per-route records after
the post-pass. -/
def extract_data (lines : List (List Char)) : String × List (String × Record) :=
  (extract_booking_code lines, (rawState lines).data.map postRoute)

/-- The same extraction with the halving rule removed: the reference point
of the spec's "value without the rule". -/
def extractNoHalve (lines : List (List Char)) : List (String × Record) :=
  (rawState lines).data.map (fun p => (p.1, computeRevenue p.2))

def demoSeniorLines : List (List Char) :=
  ["Route 65 Senior Shopper\n".data,
   "  In-service duration : 0h2\n".data,
   "  Layover duration : 0h2\n".data]

/-- route_sort_key (lines 96-98): re.match r'(\d+)' — the leading digit run
of the route identifier as an integer, none when there is no leading digit. -/
def leadingInt (s : String) : Option ℕ :=
  let ds := s.data.takeWhile Char.isDigit
  if ds.isEmpty then none else some (natOfDigits ds)

/-- The sort key: the leading integer, or float('inf') — modelled as the top
element — when the identifier has no leading digit. -/
def route_sort_key (s : String) : WithTop ℕ :=
  match leadingInt s with
  | some k => (k : WithTop ℕ)
  | none => ⊤

/-- The comparison used to sort the route universe. -/
def keyRel (a b : String) : Prop := route_sort_key a ≤ route_sort_key b

instance : DecidableRel keyRel :=
  fun a b => inferInstanceAs (Decidable (route_sort_key a ≤ route_sort_key b))

instance : IsTotal String keyRel := ⟨fun a b => le_total (route_sort_key a) (route_sort_key b)⟩

instance : IsTrans String keyRel := ⟨fun _ _ _ h1 h2 => le_trans h1 h2⟩

/-- The aggregated dataset: one entry per uploaded file, keyed by display
name, in upload order. -/
def AllData : Type := List (String × List (String × Record))

/-- The recognized day-type file names in canonical order (line 23). -/
def file_order : List String := ["WDY Stats.prt", "SAT Stats.prt", "SUN Stats.prt"]

/-- Line 134: the union of route identifiers over every value of all_data
(a Python set; modelled as first-occurrence dedup, the claims do not depend
on the pre-sort order). -/
def allRouteIds (ad : AllData) : List String :=
  ((ad.map (fun p => p.2.map Prod.fst)).flatten).dedup

/-- Line 134: sorted(set(...), key=route_sort_key). -/
def sortedRoutes (ad : AllData) : List String :=
  List.insertionSort keyRel (allRouteIds ad)

/-- A grid cell value: blank (the "" default of line 148) or a number. -/
inductive CellVal
  | blank
  | num (q : Q)
deriving DecidableEq

/-- Lines 106-110: the second header row: "Route number", then one block of
the nine field names for each recognized file present, in canonical order. -/
def headersRow2 (ad : AllData) : List String :=
  file_order.foldl
    (fun acc f => if (lookupKey f ad).isSome then acc ++ data_fields.map fieldName else acc)
    ["Route number"]

/-- Lines 122-131: the merged day-type cells of the first header row: each
present recognized file with the start column of its block; blocks are laid
out compactly from column 2 in canonical order. -/
def headerBlocksAux (ad : AllData) : List String → ℕ → List (String × ℕ)
  | [], _ => []
  | f :: rest, col =>
      if (lookupKey f ad).isSome then
        (f, col) :: headerBlocksAux ad rest (col + data_fields.length)
      else headerBlocksAux ad rest col

def headerBlocks (ad : AllData) : List (String × ℕ) :=
  headerBlocksAux ad file_order 2

/-- Lines 146-149: route_data.get(field_name, "") — the value written for
one day-type and one field in a route's body row, where route_data is
data.get(route, {}): the record's value when the route is present in that
day-type's mapping, else the blank default. -/
def cellVal (d : List (String × Record)) (route : String) (f : Field) : CellVal :=
  match lookupKey route d with
  | some rec => CellVal.num (getF rec f)
  | none => CellVal.blank

/-- Lines 141-150: the value cells of one body row, as (column, value)
pairs.  The code enumerates file_order with its fixed index and writes the
block of a present file at column offset 2 + file_idx * len(data_fields),
skipping absent files. -/
def bodyCells (ad : AllData) (route : String) : List (ℕ × CellVal) :=
  ((file_order.enum.filterMap
      (fun p => (lookupKey p.2 ad).map (fun d => (p.1, d)))).map
    (fun pd => data_fields.enum.map
      (fun q => (2 + pd.1 * data_fields.length + q.1, cellVal pd.2 route q.2)))).flatten

/-- Line 158: val and "TAXI" in str(val).upper(), on a column-1 route cell. -/
def taxiCell (v : String) : Bool :=
  !v.isEmpty && containsSub "TAXI".data (upperList v.data)

/-- Lines 155-161: scan the body rows top to bottom, delete the first row
whose route cell matches the TAXI test, then stop. -/
def removeFirstTaxi : List String → List String
  | [] => []
  | r :: t => if taxiCell r then t else r :: removeFirstTaxi t

/-- The route column of the body rows of the final grid: the sorted route
universe with the first TAXI row removed. -/
def bodyRowsFinal (ad : AllData) : List String :=
  removeFirstTaxi (sortedRoutes ad)

/-- Lines 193-206 of the orchestration: all_data[name] = extract_data(...)
for each uploaded file, in upload order. -/
def buildAllData (files : List (String × List (List Char))) : AllData :=
  files.foldl (fun acc p => updateAssoc acc p.1 (extract_data p.2).2) []

/-- The overall booking code of a batch (lines 203-206). -/
def overallBookingOfFiles (files : List (String × List (List Char))) : String :=
  overallBooking (files.map (fun p => (extract_data p.2).1))

/-- Spec-side predicate (from the words of the specification, for claim C4):
the captured string is, as a whole, of the form int h int. -/
def specHMShape (s : List Char) : Bool :=
  match s.dropWhile Char.isDigit with
  | 'h' :: r => !(s.takeWhile Char.isDigit).isEmpty && !r.isEmpty && r.all Char.isDigit
  | _ => false

/-! ### Concrete data used by the witnesses and counterexamples -/

/-- The record that extraction produces for the senior-shopper demo input
(after the halving rule): In Service 0.02, Layover 0.02, Revenue Hours 0.03. -/
def seniorHalvedRec : Record :=
  ⟨zeroQ, zeroQ, zeroQ, ⟨1, 50⟩, zeroQ, ⟨1, 50⟩, zeroQ, zeroQ, ⟨3, 100⟩⟩

/-- The pre-halving record of the senior-shopper demo input. -/
def seniorPreRec : Record :=
  ⟨zeroQ, zeroQ, zeroQ, ⟨3, 100⟩, zeroQ, ⟨3, 100⟩, zeroQ, zeroQ, ⟨3, 50⟩⟩

def demoPlainLines : List (List Char) :=
  ["Route 7 Main Street\n".data, "  In-service duration : 1h30\n".data]

def plainRec : Record :=
  ⟨zeroQ, zeroQ, zeroQ, ⟨3, 2⟩, zeroQ, zeroQ, zeroQ, zeroQ, ⟨3, 2⟩⟩

/-- An aggregated dataset holding only a Saturday file. -/
def satOnly : AllData := [("SAT Stats.prt", [("1 Main", initRecord)])]

def adTaxi : AllData :=
  [("WDY Stats.prt",
    [("1 Apple", initRecord), ("2 TAXI LOOP", initRecord), ("3 Taxi Cab", initRecord)])]

def demoOrderData : AllData :=
  [("WDY Stats.prt",
    [("12 Main St", initRecord), ("3 Elm Ave", initRecord), ("Shuttle", initRecord)])]

def adC7 : AllData := [("WDY Stats.prt", [("1 Main", initRecord)])]

def demoBookingLines : List (List Char) :=
  ["no code here\n".data, "Booking: 4821\n".data]

def mysteryData : AllData :=
  [("WDY Stats.prt", [("1 Main", initRecord)]),
   ("Mystery.prt", [("99 Ghost", initRecord)])]

/-- The fold step of the overall booking code accumulation. -/
def bookingStep (acc bc : String) : String :=
  if lowerList bc.data != "unknown".data && acc == "unknown" then bc else acc

/-- Removal of a dict entry, used to state that a file's presence has no
effect on an output component. -/
def eraseKey {α : Type} (k : String) : List (String × α) → List (String × α)
  | [] => []
  | (k', v) :: t => if k' = k then t else (k', v) :: eraseKey k t

/-! ### Helper lemmas about the dictionary model -/

theorem lookupKey_mem {α : Type} {k : String} {v : α} :
    ∀ {l : List (String × α)}, lookupKey k l = some v → (k, v) ∈ l := by
  intro l
  induction l with
  | nil => intro h; simp [lookupKey] at h
  | cons p t ih =>
      obtain ⟨pk, pv⟩ := p
      intro h
      rw [lookupKey] at h
      by_cases hk : pk = k
      · subst hk
        rw [if_pos rfl] at h
        injection h with h
        subst h
        exact List.mem_cons_self _ _
      · rw [if_neg hk] at h
        exact List.mem_cons_of_mem _ (ih h)

theorem updateAssoc_self {α : Type} {k : String} {v : α} :
    ∀ {l : List (String × α)}, lookupKey k l = some v → updateAssoc l k v = l := by
  intro l
  induction l with
  | nil => intro h; simp [lookupKey] at h
  | cons p t ih =>
      obtain ⟨pk, pv⟩ := p
      intro h
      rw [lookupKey] at h
      rw [updateAssoc]
      by_cases hk : pk = k
      · subst hk
        rw [if_pos rfl] at h
        injection h with h
        subst h
        rw [if_pos rfl]
      · rw [if_neg hk] at h
        rw [if_neg hk, ih h]

theorem lookupKey_updateAssoc {α : Type} (k k' : String) (v : α) :
    ∀ (l : List (String × α)),
      lookupKey k' (updateAssoc l k v) = if k' = k then some v else lookupKey k' l := by
  intro l
  induction l with
  | nil =>
      simp only [updateAssoc, lookupKey]
      by_cases hk : k' = k
      · subst hk
        rw [if_pos rfl]
      · rw [if_neg hk, if_neg (fun h => hk h.symm)]
  | cons p t ih =>
      obtain ⟨pk, pv⟩ := p
      rw [updateAssoc]
      by_cases h1 : pk = k
      · subst h1
        rw [if_pos rfl]
        by_cases h2 : k' = pk
        · subst h2
          simp [lookupKey]
        · rw [lookupKey, if_neg (fun h => h2 h.symm), if_neg h2, lookupKey,
            if_neg (fun h => h2 h.symm)]
      · rw [if_neg h1, lookupKey]
        by_cases h2 : pk = k'
        · subst h2
          rw [if_pos rfl, if_neg h1, lookupKey, if_pos rfl]
        · rw [if_neg h2, ih, lookupKey, if_neg h2]
/-! ### Claim C1: the Revenue Hours invariant -/

/-- C1 (counterexample): after the halving rule, the stored Revenue Hours is
no longer the rounded sum of the stored In Service and Layover Durations:
with both durations captured as "0h2" (0.03 h each), the record holds
In Service 0.02, Layover 0.02 and Revenue Hours 0.03, while
round(0.02 + 0.02, 2) = 0.04. -/
theorem C1_counterexample :
    isSenior "65 Senior Shopper" = true ∧
    lookupKey "65 Senior Shopper" (extract_data demoSeniorLines).2 = some seniorHalvedRec ∧
    seniorHalvedRec.revenueHours ≠
      Q.round2 (seniorHalvedRec.inServiceDuration.add seniorHalvedRec.layoverDuration) := by
  refine ⟨by decide, by decide, by decide⟩

/-- C1 (amended): within a RouteRecord produced by extract_data, Revenue
Hours equals round(In Service Duration + Layover Duration, 2) whenever the
record is not subject to the halving rule; for the halved route the
invariant holds of the pre-halving record. -/
theorem C1_revenue_invariant (lines : List (List Char)) (r : String) (rec : Record) :
    ((r, rec) ∈ (extract_data lines).2 → isSenior r = false →
      rec.revenueHours = Q.round2 (rec.inServiceDuration.add rec.layoverDuration)) ∧
    ((r, rec) ∈ extractNoHalve lines →
      rec.revenueHours = Q.round2 (rec.inServiceDuration.add rec.layoverDuration)) := by
  constructor
  · intro hmem hsen
    rcases List.mem_map.mp hmem with ⟨p, hp, heq⟩
    have h1 : p.1 = r := congrArg Prod.fst heq
    have h2 : (if isSenior p.1 then halveRec (computeRevenue p.2) else computeRevenue p.2)
        = rec := congrArg Prod.snd heq
    rw [h1, hsen, if_neg (by simp)] at h2
    rw [← h2]
    rfl
  · intro hmem
    rcases List.mem_map.mp hmem with ⟨p, hp, heq⟩
    have h2 : computeRevenue p.2 = rec := congrArg Prod.snd heq
    rw [← h2]
    rfl

/-- Witness for C1: a concrete non-halved route satisfying the invariant. -/
theorem C1_witness :
    ("7 Main Street", plainRec) ∈ (extract_data demoPlainLines).2 ∧
    isSenior "7 Main Street" = false ∧
    plainRec.revenueHours = Q.round2 (plainRec.inServiceDuration.add plainRec.layoverDuration) :=
  ⟨by decide, by decide,
    (C1_revenue_invariant demoPlainLines "7 Main Street" plainRec).1 (by decide) (by decide)⟩

/-! ### Claim C3: the senior-shopper halving rule -/

/-- C3: a route whose identifier matches the halving test (trimmed,
case-folded equality with "65 senior shopper") gets every field — including
the just-computed Revenue Hours — halved and rounded to 2 decimals relative
to the extraction without the rule; every other route's record is exactly
the no-rule record. -/
theorem C3_halving_rule (lines : List (List Char)) (r : String) (rec : Record)
    (hmem : (r, rec) ∈ extractNoHalve lines) :
    (isSenior r = true → (r, halveRec rec) ∈ (extract_data lines).2) ∧
    (isSenior r = false → (r, rec) ∈ (extract_data lines).2) ∧
    (∀ f : Field, getF (halveRec rec) f = Q.round2 ((getF rec f).div (Q.ofNat 2))) := by
  rcases List.mem_map.mp hmem with ⟨p, hp, heq⟩
  have h1 : p.1 = r := congrArg Prod.fst heq
  have h2 : computeRevenue p.2 = rec := congrArg Prod.snd heq
  refine ⟨?_, ?_, ?_⟩
  · intro hsen
    refine List.mem_map.mpr ⟨p, hp, ?_⟩
    show (p.1, if isSenior p.1 then halveRec (computeRevenue p.2) else computeRevenue p.2)
      = (r, halveRec rec)
    rw [h1, h2, hsen, if_pos rfl]
  · intro hsen
    refine List.mem_map.mpr ⟨p, hp, ?_⟩
    show (p.1, if isSenior p.1 then halveRec (computeRevenue p.2) else computeRevenue p.2)
      = (r, rec)
    rw [h1, h2, hsen, if_neg (by simp)]
  · intro f
    cases f <;> rfl

/-- Witness for C3: on the senior-shopper demo input, the extracted record
is exactly the halving of the no-rule record. -/
theorem C3_witness :
    ("65 Senior Shopper", seniorPreRec) ∈ extractNoHalve demoSeniorLines ∧
    isSenior "65 Senior Shopper" = true ∧
    ("65 Senior Shopper", halveRec seniorPreRec) ∈ (extract_data demoSeniorLines).2 :=
  ⟨by decide, by decide,
    (C3_halving_rule demoSeniorLines "65 Senior Shopper" seniorPreRec (by decide)).1 (by decide)⟩

/-! ### Claim C2: grid layout per present day-type -/

/-- C2 (code divergence, evaluated at the failing input): with only
"SAT Stats.prt" present, the header rows hold exactly one nine-column block
at columns 2-10 (10 header columns in all), but every body value cell of
the lone route is written at columns 11-19 — outside every header column.
The header layout is compacted over present files while the body uses the
fixed canonical file index, so the two disagree whenever the present files
are not a prefix of the canonical order. -/
theorem C2_header_body_mismatch :
    (headersRow2 satOnly).length = 10 ∧
    headerBlocks satOnly = [("SAT Stats.prt", 2)] ∧
    (bodyCells satOnly "1 Main").map Prod.fst =
      [11, 12, 13, 14, 15, 16, 17, 18, 19] ∧
    (∀ p ∈ bodyCells satOnly "1 Main", (headersRow2 satOnly).length < p.1) := by
  refine ⟨by decide, by decide, by decide, by decide⟩

/-! ### Claim C4: duration string conversion -/

/-- C4 (counterexample): the captured string "3h45m" — capturable, since the
duration capture class is [\dhm]+ — is not of the whole-string form
int h int, yet parse_time_string converts it to 3.75 rather than 0.0,
because re.match only anchors a prefix. -/
theorem C4_counterexample :
    searchPat "In-service duration".data (clsFn CapCls.dhm)
        "  In-service duration : 3h45m\n".data = some "3h45m".data ∧
    specHMShape "3h45m".data = false ∧
    parse_time_string "3h45m".data = ⟨15, 4⟩ ∧
    (⟨15, 4⟩ : Q) ≠ ⟨0, 1⟩ := by
  refine ⟨by decide, by decide, by decide, by decide⟩

/-- C4 (amended): a captured string that begins with a digit run, the letter
h, and a digit run converts to round(hours + minutes/60, 2) computed from
that prefix (trailing text ignored); a captured string that does not yield a
zero result always decomposes this way, so strings without such a prefix
yield 0.0. -/
theorem C4_duration_semantics (hs ms rest : List Char)
    (h1 : hs ≠ []) (h2 : ∀ c ∈ hs, c.isDigit = true)
    (h3 : ms ≠ []) (h4 : ∀ c ∈ ms, c.isDigit = true)
    (h5 : ∀ c, rest.head? = some c → c.isDigit = false) :
    parse_time_string (hs ++ 'h' :: (ms ++ rest)) =
      Q.round2 ((Q.ofNat (natOfDigits hs)).add ((Q.ofNat (natOfDigits ms)).div (Q.ofNat 60))) ∧
    (∀ s : List Char, parse_time_string s ≠ Q.ofNat 0 →
      ∃ hs2 ms2 rest2, s = hs2 ++ 'h' :: (ms2 ++ rest2) ∧ hs2 ≠ [] ∧ ms2 ≠ [] ∧
        (∀ c ∈ hs2, c.isDigit = true) ∧ (∀ c ∈ ms2, c.isDigit = true) ∧
        parse_time_string s =
          Q.round2 ((Q.ofNat (natOfDigits hs2)).add ((Q.ofNat (natOfDigits ms2)).div (Q.ofNat 60)))) := by
  have hHdig : ('h').isDigit = false := by decide
  constructor
  · have hrest : rest.takeWhile Char.isDigit = [] := by
      cases rest with
      | nil => rfl
      | cons c r =>
          rw [List.takeWhile_cons, h5 c rfl]
          simp
    have htake : (hs ++ 'h' :: (ms ++ rest)).takeWhile Char.isDigit = hs := by
      rw [List.takeWhile_append_of_pos h2, List.takeWhile_cons, hHdig]
      simp
    have hdrop : (hs ++ 'h' :: (ms ++ rest)).dropWhile Char.isDigit = 'h' :: (ms ++ rest) := by
      rw [List.dropWhile_append_of_pos h2, List.dropWhile_cons, hHdig]
      simp
    have hms2 : (ms ++ rest).takeWhile Char.isDigit = ms := by
      rw [List.takeWhile_append_of_pos h4, hrest, List.append_nil]
    have hhs : hs.isEmpty = false := List.isEmpty_eq_false.mpr h1
    have hms : ms.isEmpty = false := List.isEmpty_eq_false.mpr h3
    rw [parse_time_string]
    simp only [htake, hdrop, hms2, hhs, hms]
    simp
  · intro s hne
    by_cases hemp : (s.takeWhile Char.isDigit).isEmpty
    · exfalso
      apply hne
      rw [parse_time_string]
      simp [hemp]
    · cases hd : s.dropWhile Char.isDigit with
      | nil =>
          exfalso
          apply hne
          rw [parse_time_string]
          simp [hemp, hd]
      | cons c r =>
          by_cases hc : c = 'h'
          · subst hc
            by_cases hm : (r.takeWhile Char.isDigit).isEmpty
            · exfalso
              apply hne
              rw [parse_time_string]
              simp [hemp, hd, hm]
            · refine ⟨s.takeWhile Char.isDigit, r.takeWhile Char.isDigit,
                r.dropWhile Char.isDigit, ?_, ?_, ?_, ?_, ?_, ?_⟩
              · have hr : List.takeWhile Char.isDigit r ++ List.dropWhile Char.isDigit r = r :=
                  List.takeWhile_append_dropWhile _ _
                rw [hr]
                conv_lhs => rw [← List.takeWhile_append_dropWhile Char.isDigit s]
                rw [hd]
              · intro h
                apply hemp
                rw [h]
                rfl
              · intro h
                apply hm
                rw [h]
                rfl
              · exact fun c hc2 => List.mem_takeWhile_imp hc2
              · exact fun c hc2 => List.mem_takeWhile_imp hc2
              · rw [parse_time_string]
                simp [hemp, hd, hm]
          · exfalso
            apply hne
            rw [parse_time_string]
            simp [hemp, hd, hc]

/-- Witness for C4: the amended conversion at hours "3", minutes "45" and
trailing text "m". -/
theorem C4_witness :
    parse_time_string ("3".data ++ 'h' :: ("45".data ++ "m".data)) =
      Q.round2 ((Q.ofNat (natOfDigits "3".data)).add
        ((Q.ofNat (natOfDigits "45".data)).div (Q.ofNat 60))) :=
  (C4_duration_semantics "3".data "45".data "m".data (by decide) (by decide) (by decide)
    (by decide) (by intro c h; injection h with h; rw [← h]; decide)).1

/-! ### Claim C5: the TAXI exclusion rule -/

theorem removeFirstTaxi_none :
    ∀ (l : List String), (∀ r ∈ l, taxiCell r = false) → removeFirstTaxi l = l := by
  intro l
  induction l with
  | nil => intro _; rfl
  | cons r t ih =>
      intro h
      rw [removeFirstTaxi, if_neg (by rw [h r (List.mem_cons_self r t)]; simp),
        ih (fun x hx => h x (List.mem_cons_of_mem _ hx))]

theorem removeFirstTaxi_first :
    ∀ (pre : List String) (x : String) (post : List String),
      (∀ p ∈ pre, taxiCell p = false) → taxiCell x = true →
      removeFirstTaxi (pre ++ x :: post) = pre ++ post := by
  intro pre
  induction pre with
  | nil =>
      intro x post _ hx
      rw [List.nil_append, removeFirstTaxi, if_pos hx, List.nil_append]
  | cons p t ih =>
      intro x post hp hx
      rw [List.cons_append, removeFirstTaxi,
        if_neg (by rw [hp p (List.mem_cons_self p t)]; simp),
        ih x post (fun y hy => hp y (List.mem_cons_of_mem _ hy)) hx, List.cons_append]

/-- C5: after the route list is built, exactly the first route (in row
order) whose identifier contains "TAXI" case-insensitively is removed from
the body rows; with no match the rows are unchanged, and later matches
survive. -/
theorem C5_taxi_exclusion (ad : AllData) :
    ((∀ r ∈ sortedRoutes ad, taxiCell r = false) → bodyRowsFinal ad = sortedRoutes ad) ∧
    (∀ pre x post, sortedRoutes ad = pre ++ x :: post →
      (∀ p ∈ pre, taxiCell p = false) → taxiCell x = true →
      bodyRowsFinal ad = pre ++ post) := by
  constructor
  · intro h
    rw [bodyRowsFinal, removeFirstTaxi_none _ h]
  · intro pre x post heq hp hx
    rw [bodyRowsFinal, heq, removeFirstTaxi_first pre x post hp hx]

/-- Witness for C5: of two TAXI routes only the first sorted one is
removed. -/
theorem C5_witness :
    sortedRoutes adTaxi = ["1 Apple", "2 TAXI LOOP", "3 Taxi Cab"] ∧
    taxiCell "2 TAXI LOOP" = true ∧
    taxiCell "3 Taxi Cab" = true ∧
    bodyRowsFinal adTaxi = ["1 Apple", "3 Taxi Cab"] :=
  ⟨by decide, by decide, by decide,
    (C5_taxi_exclusion adTaxi).2 ["1 Apple"] "2 TAXI LOOP" ["3 Taxi Cab"]
      (by decide) (by decide) (by decide)⟩

/-! ### Claim C6: route ordering -/

/-- C6: the route universe is sorted ascending by the leading-integer key
(a permutation of the union of route identifiers); identifiers without a
leading integer take the top key, hence sort last; and the spec's example
sorts as stated. -/
theorem C6_route_ordering :
    (∀ ad : AllData, List.Sorted keyRel (sortedRoutes ad) ∧
      List.Perm (sortedRoutes ad) (allRouteIds ad)) ∧
    (∀ a b : String, leadingInt a = none → keyRel b a) ∧
    sortedRoutes demoOrderData = ["3 Elm Ave", "12 Main St", "Shuttle"] := by
  refine ⟨fun ad => ⟨List.sorted_insertionSort keyRel _, List.perm_insertionSort keyRel _⟩,
    ?_, by decide⟩
  intro a b ha
  show route_sort_key b ≤ route_sort_key a
  have h : route_sort_key a = ⊤ := by rw [route_sort_key, ha]
  rw [h]
  exact le_top

/-- Witness for C6: "Shuttle" has no leading integer and every key is below
its top key. -/
theorem C6_witness :
    leadingInt "Shuttle" = none ∧ keyRel "12 Main St" "Shuttle" :=
  ⟨by decide, C6_route_ordering.2.1 "Shuttle" "12 Main St" (by decide)⟩

/-! ### Claim C7: body cell values -/

/-- C7: the value cell written for a present day-type block and a field in a
route's body row holds the record's value when the route is present in that
day-type's mapping, and is blank — never a numeric zero — otherwise. -/
theorem C7_cell_values (ad : AllData) (i : ℕ) (fname : String) (d : List (String × Record))
    (route : String) (j : ℕ) (fld : Field)
    (hf : (i, fname) ∈ file_order.enum) (hd : lookupKey fname ad = some d)
    (hj : (j, fld) ∈ data_fields.enum) :
    ((2 + i * data_fields.length + j, cellVal d route fld) ∈ bodyCells ad route) ∧
    (∀ rec, lookupKey route d = some rec → cellVal d route fld = CellVal.num (getF rec fld)) ∧
    (lookupKey route d = none → cellVal d route fld = CellVal.blank) ∧
    (∀ q2 : Q, CellVal.blank ≠ CellVal.num q2) := by
  refine ⟨?_, ?_, ?_, ?_⟩
  · rw [bodyCells]
    refine List.mem_flatten.mpr
      ⟨data_fields.enum.map (fun q => (2 + i * data_fields.length + q.1, cellVal d route q.2)),
        ?_, ?_⟩
    · refine List.mem_map.mpr ⟨(i, d), ?_, rfl⟩
      refine List.mem_filterMap.mpr ⟨(i, fname), hf, ?_⟩
      rw [hd]
      rfl
    · exact List.mem_map.mpr ⟨(j, fld), hj, rfl⟩
  · intro rec h
    rw [cellVal, h]
  · intro h
    rw [cellVal, h]
  · intro q2 h
    exact CellVal.noConfusion h

/-- Witness for C7: the Revenue Hours cell of a present route sits in the
weekday block of its body row. -/
theorem C7_witness :
    (0, "WDY Stats.prt") ∈ file_order.enum ∧
    (8, Field.revenueHours) ∈ data_fields.enum ∧
    (2 + 0 * data_fields.length + 8,
      cellVal [("1 Main", initRecord)] "1 Main" Field.revenueHours) ∈ bodyCells adC7 "1 Main" :=
  ⟨by decide, by decide,
    (C7_cell_values adC7 0 "WDY Stats.prt" [("1 Main", initRecord)] "1 Main" 8
      Field.revenueHours (by decide) (by decide) (by decide)).1⟩

/-! ### Claim C8: booking identifiers -/

theorem toNat_le_of_isDigit {c : Char} (h : c.isDigit = true) : c.toNat ≤ 57 := by
  simp only [Char.isDigit, Bool.and_eq_true, decide_eq_true_eq] at h
  have h2 : c.val.toNat ≤ (57 : UInt32).toNat := by
    rw [UInt32.le_def, BitVec.le_def] at h
    exact h.2
  exact le_trans h2 (by decide)

theorem toLower_of_isDigit {c : Char} (h : c.isDigit = true) : c.toLower = c := by
  rw [Char.toLower, if_neg]
  intro hcon
  have h2 := toNat_le_of_isDigit h
  omega

theorem bookingTagAt_digits {l ds : List Char} (h : bookingTagAt l = some ds) :
    ds ≠ [] ∧ ∀ c ∈ ds, c.isDigit = true := by
  rw [bookingTagAt] at h
  by_cases hp : ("Booking:".data).isPrefixOf l
  · rw [if_pos hp] at h
    by_cases he :
        (((l.drop ("Booking:".data).length).dropWhile isSpace).takeWhile Char.isDigit).isEmpty
    · rw [if_pos he] at h
      exact absurd h (by simp)
    · rw [if_neg he] at h
      injection h with h
      subst h
      exact ⟨fun hh => he (by rw [hh]; rfl), fun c hc => List.mem_takeWhile_imp hc⟩
  · rw [if_neg hp] at h
    exact absurd h (by simp)

theorem searchBooking_digits :
    ∀ {l ds : List Char}, searchBooking l = some ds →
      ds ≠ [] ∧ ∀ c ∈ ds, c.isDigit = true := by
  intro l
  induction l with
  | nil => intro ds h; exact bookingTagAt_digits h
  | cons c t ih =>
      intro ds h
      rw [searchBooking] at h
      cases hb : bookingTagAt (c :: t) with
      | some ds2 =>
          rw [hb] at h
          injection h with h
          subst h
          exact bookingTagAt_digits hb
      | none =>
          rw [hb] at h
          exact ih h

theorem overallBooking_eq_foldl (codes : List String) :
    overallBooking codes = codes.foldl bookingStep "unknown" := rfl

theorem bookingStep_stuck :
    ∀ (l : List String) (acc : String), acc ≠ "unknown" → l.foldl bookingStep acc = acc := by
  intro l
  induction l with
  | nil => intro acc _; rfl
  | cons b t ih =>
      intro acc hacc
      rw [List.foldl_cons]
      have hb : (acc == "unknown") = false := beq_eq_false_iff_ne.mpr hacc
      rw [show bookingStep acc b = acc from by rw [bookingStep, hb, Bool.and_false]; rfl]
      exact ih acc hacc

theorem bookingStep_unknowns :
    ∀ (l : List String), (∀ p ∈ l, p = "unknown") →
      l.foldl bookingStep "unknown" = "unknown" := by
  intro l
  induction l with
  | nil => intro _; rfl
  | cons b t ih =>
      intro h
      rw [List.foldl_cons,
        show bookingStep "unknown" b = "unknown" from by
          rw [h b (List.mem_cons_self b t), bookingStep]
          decide]
      exact ih (fun p hp => h p (List.mem_cons_of_mem _ hp))

/-- C8: per file, the booking identifier is the digits of the first line
matching the booking pattern ("unknown" when no line matches, digits
otherwise); the overall identifier adopted by the orchestration is the
first per-file identifier that is not "unknown", in input order, and
"unknown" when there is none. -/
theorem C8_booking (lines : List (List Char)) (bcs : List String) :
    ((∀ l ∈ lines, searchBooking l = none) → extract_booking_code lines = "unknown") ∧
    (∀ pre l post ds, lines = pre ++ l :: post → (∀ p ∈ pre, searchBooking p = none) →
      searchBooking l = some ds → extract_booking_code lines = String.mk ds) ∧
    (extract_booking_code lines = "unknown" ∨
      ((extract_booking_code lines).data ≠ [] ∧
        ∀ c ∈ (extract_booking_code lines).data, c.isDigit = true)) ∧
    ((∀ b ∈ bcs, b = "unknown") → overallBooking bcs = "unknown") ∧
    (∀ pre b post, bcs = pre ++ b :: post → (∀ p ∈ pre, p = "unknown") →
      b.data ≠ [] → (∀ c ∈ b.data, c.isDigit = true) → overallBooking bcs = b) := by
  refine ⟨?_, ?_, ?_, ?_, ?_⟩
  · intro h
    induction lines with
    | nil => rfl
    | cons line rest ih =>
        rw [extract_booking_code, h line (List.mem_cons_self line rest)]
        exact ih (fun p hp => h p (List.mem_cons_of_mem _ hp))
  · intro pre
    induction pre generalizing lines with
    | nil =>
        intro l post ds hlines _ hl
        subst hlines
        rw [List.nil_append, extract_booking_code, hl]
    | cons p t ih =>
        intro l post ds hlines hpre hl
        subst hlines
        rw [List.cons_append, extract_booking_code, hpre p (List.mem_cons_self p _)]
        exact ih _ l post ds rfl (fun x hx => hpre x (List.mem_cons_of_mem _ hx)) hl
  · induction lines with
    | nil => left; rfl
    | cons line rest ih =>
        rw [extract_booking_code]
        cases hs : searchBooking line with
        | some ds =>
            right
            obtain ⟨h1, h2⟩ := searchBooking_digits hs
            exact ⟨h1, h2⟩
        | none => exact ih
  · intro h
    rw [overallBooking_eq_foldl]
    exact bookingStep_unknowns bcs h
  · intro pre b post hbcs hpre hne hdig
    subst hbcs
    have hlb : lowerList b.data = b.data := by
      rw [lowerList]
      rw [List.map_congr_left (fun c hc => toLower_of_isDigit (hdig c hc))]
      exact List.map_id b.data
    have hdata : b.data ≠ "unknown".data := by
      intro he
      have hu : 'u' ∈ b.data := by
        rw [he]
        exact List.mem_cons_self _ _
      have := hdig 'u' hu
      exact absurd this (by decide)
    have hbne : b ≠ "unknown" := fun h => hdata (congrArg String.data h)
    rw [overallBooking_eq_foldl, List.foldl_append, bookingStep_unknowns pre hpre,
      List.foldl_cons,
      show bookingStep "unknown" b = b from by
        rw [bookingStep, hlb,
          show (b.data != "unknown".data) = true from bne_iff_ne.mpr hdata]
        simp]
    exact bookingStep_stuck post b hbne

/-- Witness for C8: the second line carries the first booking match, and the
overall code adopts the first non-unknown per-file code. -/
theorem C8_witness :
    extract_booking_code demoBookingLines = String.mk "4821".data ∧
    overallBooking ["unknown", "4821", "77"] = "4821" :=
  ⟨(C8_booking demoBookingLines []).2.1 ["no code here\n".data] "Booking: 4821\n".data []
      "4821".data (by rfl) (by decide) (by decide),
    (C8_booking [] ["unknown", "4821", "77"]).2.2.2.2 ["unknown"] "4821" ["77"]
      (by rfl) (by decide) (by decide) (by decide)⟩

/-! ### Claim C9: unrecognized file names -/

theorem lookupKey_eraseKey {α : Type} {k g : String} (h : g ≠ k) :
    ∀ (l : List (String × α)), lookupKey g (eraseKey k l) = lookupKey g l := by
  intro l
  induction l with
  | nil => rfl
  | cons p t ih =>
      obtain ⟨pk, pv⟩ := p
      rw [eraseKey]
      by_cases h1 : pk = k
      · subst h1
        rw [if_pos rfl, lookupKey, if_neg (fun hh => h hh.symm)]
      · rw [if_neg h1, lookupKey, lookupKey]
        by_cases h2 : pk = g
        · rw [if_pos h2, if_pos h2]
        · rw [if_neg h2, if_neg h2, ih]

/-- C9 (counterexample): a route present only in a file with an unrecognized
display name still becomes a body row of the rendered grid: "99 Ghost" lives
only in "Mystery.prt", which is not a recognized name, yet it appears in the
final body rows. -/
theorem C9_counterexample :
    "Mystery.prt" ∉ file_order ∧
    lookupKey "99 Ghost" [("1 Main", initRecord)] = none ∧
    "99 Ghost" ∈ bodyRowsFinal mysteryData := by
  refine ⟨by decide, by decide, by decide⟩

theorem headersRow2_congr {ad ad' : AllData}
    (h : ∀ f ∈ file_order, lookupKey f ad' = lookupKey f ad) :
    headersRow2 ad' = headersRow2 ad := by
  rw [headersRow2, headersRow2]
  have : ∀ (fs : List String) (acc : List String),
      (∀ f ∈ fs, lookupKey f ad' = lookupKey f ad) →
      fs.foldl (fun acc f =>
          if (lookupKey f ad').isSome then acc ++ data_fields.map fieldName else acc) acc =
      fs.foldl (fun acc f =>
          if (lookupKey f ad).isSome then acc ++ data_fields.map fieldName else acc) acc := by
    intro fs
    induction fs with
    | nil => intro _ _; rfl
    | cons f t ih =>
        intro acc hf
        rw [List.foldl_cons, List.foldl_cons, hf f (List.mem_cons_self f t)]
        exact ih _ (fun x hx => hf x (List.mem_cons_of_mem _ hx))
  exact this file_order ["Route number"] h

theorem headerBlocksAux_congr {ad ad' : AllData}
    (fs : List String) (h : ∀ f ∈ fs, lookupKey f ad' = lookupKey f ad) :
    ∀ (col : ℕ), headerBlocksAux ad' fs col = headerBlocksAux ad fs col := by
  induction fs with
  | nil => intro _; rfl
  | cons f t ih =>
      intro col
      rw [headerBlocksAux, headerBlocksAux, h f (List.mem_cons_self f t)]
      by_cases hs : (lookupKey f ad).isSome
      · rw [if_pos hs, if_pos hs, ih (fun x hx => h x (List.mem_cons_of_mem _ hx))]
      · rw [if_neg hs, if_neg hs, ih (fun x hx => h x (List.mem_cons_of_mem _ hx))]

theorem bodyCells_congr {ad ad' : AllData}
    (h : ∀ f ∈ file_order, lookupKey f ad' = lookupKey f ad) (route : String) :
    bodyCells ad' route = bodyCells ad route := by
  rw [bodyCells, bodyCells]
  have : file_order.enum.filterMap (fun p => (lookupKey p.2 ad').map (fun d => (p.1, d))) =
      file_order.enum.filterMap (fun p => (lookupKey p.2 ad).map (fun d => (p.1, d))) := by
    apply List.filterMap_congr
    intro p hp
    obtain ⟨hlt, heq⟩ := List.mem_enum hp
    have hmem : p.2 ∈ file_order := by
      rw [heq]
      exact List.getElem_mem hlt
    rw [h p.2 hmem]
  rw [this]

/-- C9 (amended): a file with an unrecognized display name is retained in
the aggregated dataset under its own label; it contributes no header block,
no header columns and no body value cells (erasing it changes none of
these), but its route identifiers do join the route universe, so they can
appear as body rows. -/
theorem C9_unrecognized_files (ad : AllData) (fname : String) (d : List (String × Record))
    (hf : fname ∉ file_order) (hd : lookupKey fname ad = some d) :
    headersRow2 (eraseKey fname ad) = headersRow2 ad ∧
    headerBlocks (eraseKey fname ad) = headerBlocks ad ∧
    (∀ route, bodyCells (eraseKey fname ad) route = bodyCells ad route) ∧
    (∀ r ∈ d.map Prod.fst, r ∈ allRouteIds ad) ∧
    (∀ (files : List (String × List (List Char))), ∀ p ∈ files,
      (lookupKey p.1 (buildAllData files)).isSome = true) := by
  have hlk : ∀ f ∈ file_order, lookupKey f (eraseKey fname ad) = lookupKey f ad := by
    intro f hfo
    refine lookupKey_eraseKey (fun he => hf ?_) ad
    rw [← he]
    exact hfo
  refine ⟨headersRow2_congr hlk, headerBlocksAux_congr file_order hlk 2,
    fun route => bodyCells_congr hlk route, ?_, ?_⟩
  · intro r hr
    rw [allRouteIds]
    refine List.mem_dedup.mpr (List.mem_flatten.mpr ⟨d.map Prod.fst, ?_, hr⟩)
    exact List.mem_map.mpr ⟨(fname, d), lookupKey_mem hd, rfl⟩
  · intro files
    have hpres : ∀ (fs : List (String × List (List Char))) (acc : AllData) (k : String),
        (lookupKey k acc).isSome = true →
        (lookupKey k (fs.foldl (fun acc p => updateAssoc acc p.1 (extract_data p.2).2) acc)).isSome
          = true := by
      intro fs
      induction fs with
      | nil => intro acc k h; exact h
      | cons q t ih =>
          intro acc k h
          rw [List.foldl_cons]
          apply ih
          rw [lookupKey_updateAssoc]
          by_cases hk : k = q.1
          · rw [if_pos hk]
            rfl
          · rw [if_neg hk]
            exact h
    have : ∀ (fs : List (String × List (List Char))) (acc : AllData) p, p ∈ fs →
        (lookupKey p.1 (fs.foldl (fun acc p => updateAssoc acc p.1 (extract_data p.2).2) acc)).isSome
          = true := by
      intro fs
      induction fs with
      | nil => intro acc p h; exact absurd h (List.not_mem_nil p)
      | cons q t ih =>
          intro acc p h
          rw [List.foldl_cons]
          rcases List.mem_cons.mp h with h1 | h1
          · subst h1
            apply hpres
            rw [lookupKey_updateAssoc, if_pos rfl]
            rfl
          · exact ih _ p h1
    intro p hp
    exact this files [] p hp

/-- Witness for C9: erasing the unrecognized "Mystery.prt" leaves headers
and cells unchanged, while its route is in the route universe. -/
theorem C9_witness :
    headersRow2 (eraseKey "Mystery.prt" mysteryData) = headersRow2 mysteryData ∧
    "99 Ghost" ∈ allRouteIds mysteryData :=
  ⟨(C9_unrecognized_files mysteryData "Mystery.prt" [("99 Ghost", initRecord)]
      (by decide) (by decide)).1,
    (C9_unrecognized_files mysteryData "Mystery.prt" [("99 Ghost", initRecord)]
      (by decide) (by decide)).2.2.2.1 "99 Ghost" (by decide)⟩

/-! ### Claim C10: silent handling of malformed input -/

theorem applyFields_no_match (rec : Record) (line : List Char)
    (hfields : ∀ f lit cls, fieldPat f = some (lit, cls) →
      searchPat lit.data (clsFn cls) line = none) :
    applyFields rec line = rec := by
  rw [applyFields]
  suffices h : ∀ (fs : List Field) (r : Record),
      fs.foldl (fun r f =>
        match fieldPat f with
        | none => r
        | some (lit, cls) =>
            match searchPat lit.data (clsFn cls) line with
            | none => r
            | some cap => setF r f (fieldValue f cap)) r = r from h data_fields rec
  intro fs
  induction fs with
  | nil => intro r; rfl
  | cons f t ih =>
      intro r
      rw [List.foldl_cons]
      cases hp : fieldPat f with
      | none => exact ih r
      | some lc =>
          obtain ⟨lit, cls⟩ := lc
          have hstep : (match searchPat lit.data (clsFn cls) line with
              | none => r
              | some cap => setF r f (fieldValue f cap)) = r := by
            rw [hfields f lit cls hp]
          show List.foldl _ (match searchPat lit.data (clsFn cls) line with
            | none => r
            | some cap => setF r f (fieldValue f cap)) t = r
          rw [hstep]
          exact ih r

/-- C10: malformed input is absorbed silently: a captured numeric value that
Python float() rejects is stored as zero; a line matching no route header
and no field pattern leaves the extraction state unchanged; a fresh record
initializes every field to zero (so never-matched fields stay zero); and the
concrete malformed capture "1.2.3" stores distance zero. -/
theorem C10_malformed_handling :
    (∀ val : List Char, val ≠ [] → (∀ c ∈ val, (c.isDigit || c == '.') = true) →
      pythonFloatAccepts val = false → parseNumeric val = Q.ofNat 0) ∧
    (∀ (st : ExtState) (line : List Char), routeMatch line = none →
      (∀ f lit cls, fieldPat f = some (lit, cls) →
        searchPat lit.data (clsFn cls) line = none) →
      extractStep st line = st) ∧
    (∀ f : Field, getF initRecord f = Q.ofNat 0) ∧
    getF (applyFields initRecord "  In-service distance : 1.2.3\n".data)
      Field.inServiceDistance = Q.ofNat 0 := by
  refine ⟨?_, ?_, ?_, by decide⟩
  · intro val hne hsh hacc
    rw [pythonFloatAccepts, Bool.and_eq_false_iff] at hacc
    by_cases hcount : val.count '.' = 1
    · have hany : val.any Char.isDigit = false := by
        rcases hacc with h | h
        · exfalso
          rw [decide_eq_false_iff_not] at h
          omega
        · exact h
      have hdot : ∀ c ∈ val, c = '.' := by
        intro c hc
        have h1 := hsh c hc
        have h2 := List.any_eq_false.mp hany c hc
        rw [Bool.or_eq_true] at h1
        rcases h1 with h1 | h1
        · exact absurd h1 h2
        · exact (beq_iff_eq.mp h1)
      have hlen : val.length = 1 := by
        rw [← hcount]
        exact (List.count_eq_length.mpr (fun b hb => (hdot b hb).symm)).symm
      obtain ⟨a, ha⟩ := List.length_eq_one.mp hlen
      have : a = '.' := hdot a (by rw [ha]; exact List.mem_cons_self _ _)
      subst this
      rw [ha]
      decide
    · have hdotmem : '.' ∈ val := by
        by_contra hnm
        have hzero : val.count '.' = 0 := List.count_eq_zero.mpr hnm
        rcases hacc with h | h
        · rw [decide_eq_false_iff_not] at h
          omega
        · obtain ⟨c, hc⟩ := List.exists_mem_of_ne_nil val hne
          have h1 := hsh c hc
          have h2 := List.any_eq_false.mp h c hc
          rw [Bool.or_eq_true] at h1
          rcases h1 with h1 | h1
          · exact absurd h1 h2
          · exact hnm ((beq_iff_eq.mp h1) ▸ hc)
      have hcontains : val.contains '.' = true := List.elem_iff.mpr hdotmem
      rw [parseNumeric, if_pos hcontains, parseDotted,
        show (val.count '.' == 1) = false from beq_eq_false_iff_ne.mpr hcount]
      simp
  · intro st line hroute hfields
    rw [extractStep, hroute]
    cases hc : st.current with
    | none => rfl
    | some rid =>
        show (match lookupKey rid st.data with
          | none => st
          | some rec =>
              (⟨updateAssoc st.data rid (applyFields rec line), some rid⟩ : ExtState)) = st
        cases hl : lookupKey rid st.data with
        | none => rfl
        | some rec =>
            show (⟨updateAssoc st.data rid (applyFields rec line), some rid⟩ : ExtState) = st
            rw [applyFields_no_match rec line hfields, updateAssoc_self hl, ← hc]
  · intro f
    cases f <;> rfl

/-- Witness for C10: the two-dot token "1..2" is rejected by float() and
stored as zero. -/
theorem C10_witness :
    pythonFloatAccepts "1..2".data = false ∧ parseNumeric "1..2".data = Q.ofNat 0 :=
  ⟨by decide,
    C10_malformed_handling.1 "1..2".data (by decide) (by decide) (by decide)⟩

/-! ### Soundness of the fraction type `Q` with respect to `ℚ`

These lemmas certify that `Q.mk'` and the operations built on it compute
the rational arithmetic they claim to: `Q.toRat` is a homomorphism for
add, mul and div (on well-formed values), `Q.floor` is the rational floor,
and `Q.round2` computes the spec-level rounding `specRound2`. -/

theorem Q.d_pos_mk' (n den : ℤ) : 0 < (Q.mk' n den).d := by
  rw [Q.mk']
  by_cases h : den = 0
  · rw [if_pos h]
    exact Nat.one_pos
  · rw [if_neg h]
    have hd : 0 < den.natAbs := Int.natAbs_pos.mpr h
    exact Nat.div_pos
      (Nat.le_of_dvd hd (Nat.gcd_dvd_right _ _))
      (Nat.gcd_pos_of_pos_right _ hd)

theorem Q.toRat_mk' (n den : ℤ) (h : den ≠ 0) :
    (Q.mk' n den).toRat = (n : ℚ) / (den : ℚ) := by
  rw [Q.mk', if_neg h]
  set n' : ℤ := if den < 0 then -n else n with hn'
  set d' : ℕ := den.natAbs with hd'
  set g : ℕ := Nat.gcd n'.natAbs d' with hg
  have hdpos : 0 < d' := Int.natAbs_pos.mpr h
  have hgpos : 0 < g := Nat.gcd_pos_of_pos_right _ hdpos
  have hgz : (g : ℚ) ≠ 0 := by positivity
  have hgdvdn : (g : ℤ) ∣ n' :=
    dvd_trans (Int.natCast_dvd_natCast.mpr (Nat.gcd_dvd_left _ _)) (Int.natAbs_dvd.mpr dvd_rfl)
  have hgdvdd : g ∣ d' := Nat.gcd_dvd_right _ _
  have hcastn : ((n' / (g : ℤ) : ℤ) : ℚ) = (n' : ℚ) / (g : ℚ) :=
    Int.cast_div_charZero hgdvdn
  have hcastd : ((d' / g : ℕ) : ℚ) = (d' : ℚ) / (g : ℚ) :=
    Nat.cast_div_charZero hgdvdd
  rw [Q.toRat]
  show ((n' / (g : ℤ) : ℤ) : ℚ) / ((d' / g : ℕ) : ℚ) = (n : ℚ) / (den : ℚ)
  rw [hcastn, hcastd, div_div_div_cancel_right₀ hgz]
  by_cases hneg : den < 0
  · have h1 : n' = -n := by rw [hn', if_pos hneg]
    have h2 : (d' : ℤ) = -den := by
      rw [hd']
      exact Int.ofNat_natAbs_of_nonpos (le_of_lt hneg)
    have h2q : (d' : ℚ) = -(den : ℚ) := by
      have := congrArg (fun z : ℤ => (z : ℚ)) h2
      push_cast at this
      exact_mod_cast this
    rw [h1, h2q]
    push_cast
    rw [neg_div_neg_eq]
  · have h1 : n' = n := by rw [hn', if_neg hneg]
    have h2 : (d' : ℤ) = den := by
      rw [hd']
      exact Int.natAbs_of_nonneg (le_of_not_lt hneg)
    have h2q : (d' : ℚ) = (den : ℚ) := by exact_mod_cast congrArg (fun z : ℤ => (z : ℚ)) h2
    rw [h1, h2q]

theorem Q.toRat_ofNat (k : ℕ) : (Q.ofNat k).toRat = (k : ℚ) := by
  rw [Q.ofNat, Q.toRat]
  push_cast
  exact div_one _

theorem Q.toRat_add (a b : Q) (ha : a.d ≠ 0) (hb : b.d ≠ 0) :
    (a.add b).toRat = a.toRat + b.toRat := by
  have haq : ((a.d : ℤ) : ℚ) ≠ 0 := by exact_mod_cast fun h => ha (by exact_mod_cast h)
  have hbq : ((b.d : ℤ) : ℚ) ≠ 0 := by exact_mod_cast fun h => hb (by exact_mod_cast h)
  rw [Q.add, Q.toRat_mk' _ _ (mul_ne_zero (by exact_mod_cast ha) (by exact_mod_cast hb)),
    Q.toRat, Q.toRat]
  push_cast
  field_simp

theorem Q.toRat_mul (a b : Q) (ha : a.d ≠ 0) (hb : b.d ≠ 0) :
    (a.mul b).toRat = a.toRat * b.toRat := by
  rw [Q.mul, Q.toRat_mk' _ _ (mul_ne_zero (by exact_mod_cast ha) (by exact_mod_cast hb)),
    Q.toRat, Q.toRat]
  push_cast
  field_simp

theorem Q.toRat_div (a b : Q) (ha : a.d ≠ 0) (hb : b.d ≠ 0) :
    (a.div b).toRat = a.toRat / b.toRat := by
  by_cases hbn : b.n = 0
  · have hbr : b.toRat = 0 := by rw [Q.toRat, hbn]; simp
    rw [Q.div, hbn, hbr, div_zero]
    simp only [mul_zero]
    rw [Q.mk', if_pos rfl, Q.toRat]
    simp
  · rw [Q.div, Q.toRat_mk' _ _ (mul_ne_zero (by exact_mod_cast ha) hbn), Q.toRat, Q.toRat]
    have hbq : ((b.n : ℤ) : ℚ) ≠ 0 := by exact_mod_cast hbn
    have haq : ((a.d : ℕ) : ℚ) ≠ 0 := by exact_mod_cast ha
    have hbdq : ((b.d : ℕ) : ℚ) ≠ 0 := by exact_mod_cast hb
    push_cast
    field_simp

theorem Q.floor_sound (a : Q) : a.floor = ⌊a.toRat⌋ := by
  rw [Q.floor, Q.toRat, Int.fdiv_eq_ediv _ (Int.natCast_nonneg a.d)]
  exact (Rat.floor_intCast_div_natCast a.n a.d).symm

theorem Q.rhe_sound (a : Q) (h : a.d ≠ 0) : a.rhe = rheRat a.toRat := by
  have hdq : (0 : ℚ) < (a.d : ℚ) := by
    exact_mod_cast Nat.pos_of_ne_zero h
  have hfrac : a.toRat - (⌊a.toRat⌋ : ℚ) =
      ((a.n - ⌊a.toRat⌋ * a.d : ℤ) : ℚ) / (a.d : ℚ) := by
    rw [Q.toRat]
    push_cast
    field_simp
    ring
  have hc1 : (2 * (a.n - ⌊a.toRat⌋ * (a.d : ℤ)) < (a.d : ℤ)) =
      (a.toRat - (⌊a.toRat⌋ : ℚ) < 1/2) := by
    apply propext
    rw [hfrac, div_lt_div_iff₀ hdq (by norm_num : (0:ℚ) < 2), one_mul]
    constructor
    · intro hh
      have h2 : ((2 * (a.n - ⌊a.toRat⌋ * (a.d : ℤ)) : ℤ) : ℚ) < (((a.d : ℤ)) : ℚ) := by
        exact_mod_cast hh
      push_cast at h2 ⊢
      linarith
    · intro hh
      push_cast at hh
      have h2 : ((2 * (a.n - ⌊a.toRat⌋ * (a.d : ℤ)) : ℤ) : ℚ) < (((a.d : ℤ)) : ℚ) := by
        push_cast
        linarith
      exact_mod_cast h2
  have hc2 : ((a.d : ℤ) < 2 * (a.n - ⌊a.toRat⌋ * (a.d : ℤ))) =
      (1/2 < a.toRat - (⌊a.toRat⌋ : ℚ)) := by
    apply propext
    rw [hfrac, div_lt_div_iff₀ (by norm_num : (0:ℚ) < 2) hdq, one_mul]
    constructor
    · intro hh
      have h2 : (((a.d : ℤ)) : ℚ) < ((2 * (a.n - ⌊a.toRat⌋ * (a.d : ℤ)) : ℤ) : ℚ) := by
        exact_mod_cast hh
      push_cast at h2 ⊢
      linarith
    · intro hh
      push_cast at hh
      have h2 : (((a.d : ℤ)) : ℚ) < ((2 * (a.n - ⌊a.toRat⌋ * (a.d : ℤ)) : ℤ) : ℚ) := by
        push_cast
        linarith
      exact_mod_cast h2
  rw [Q.rhe, rheRat]
  rw [Q.floor_sound]
  simp only [hc1, hc2]

theorem Q.round2_sound (a : Q) (h : a.d ≠ 0) :
    (a.round2).toRat = specRound2 a.toRat := by
  have hmul : (a.mul (Q.ofNat 100)).toRat = a.toRat * 100 := by
    rw [Q.toRat_mul a (Q.ofNat 100) h (by rw [Q.ofNat]; exact one_ne_zero), Q.toRat_ofNat]
    norm_num
  have hmd : (a.mul (Q.ofNat 100)).d ≠ 0 := by
    rw [Q.mul]
    exact (Q.d_pos_mk' _ _).ne'
  rw [Q.round2, Q.toRat_mk' _ _ (by norm_num), Q.rhe_sound _ hmd, hmul, specRound2]
  norm_num

end BusReport
